import Mathlib

/-!
Verification of the English test generator (`src/main.py`).

The development shallowly embeds the three components the claims are about:

* `generate_mock_data` — the mock question generator (`main.py`, lines 50–97).
  Python computes `num_essay = int(total_questions * (essay_percentage / 100))`
  in IEEE binary64 arithmetic; we model that arithmetic exactly with `ℚ`
  together with a round-to-nearest-even rounding function (`roundToDouble`).
* `create_pdf` — the PDF layout routine (lines 117–179), embedded as a state
  machine over the vertical cursor `y`, parameterised by a layout oracle that
  supplies the heights consumed by wrapped text cells (the exact wrapped
  heights depend on font metrics, which the claims do not constrain).
* `download_font_if_missing` — the font provisioner (lines 26–48), embedded
  as a function over an abstract file-system state producing an effect trace.
-/

set_option maxRecDepth 100000

namespace EnglishTestApp

/-! ## IEEE binary64 model over ℚ

`roundToDouble q` is the value of the IEEE-754 binary64 (Python `float`)
nearest to `q`, rounding ties to even, for `q` in the representable range
(|q| between roughly 2^-3000 and 2^3000 — far beyond every quantity that
appears in this program; overflow to infinity is not modelled).  The binade
exponent is found by fuel-bounded repeated halving/doubling so that every
definition reduces inside the kernel. -/

/-- Round a rational to the nearest integer, ties to even
(the IEEE-754 default rounding of the significand). -/
def rne (x : ℚ) : ℤ :=
  if x - ⌊x⌋ < 1/2 then ⌊x⌋
  else if 1/2 < x - ⌊x⌋ then ⌊x⌋ + 1
  else if 2 ∣ ⌊x⌋ then ⌊x⌋ else ⌊x⌋ + 1

/-- Largest `e : ℕ` with `2^e ≤ q` (for `1 ≤ q < 2^fuel`), by repeated halving. -/
def ilogUp : ℕ → ℚ → ℕ
  | 0, _ => 0
  | fuel + 1, q => if q < 2 then 0 else ilogUp fuel (q / 2) + 1

/-- Smallest `k : ℕ` with `1 ≤ q * 2^k` (for `2^(-fuel) ≤ q < 1`), by repeated doubling. -/
def ilogDown : ℕ → ℚ → ℕ
  | 0, _ => 0
  | fuel + 1, q => if 1 ≤ q then 0 else ilogDown fuel (q * 2) + 1

/-- Fuel bound for the binade search: covers every binary64 value. -/
def ilogFuel : ℕ := 3000

/-- Binade exponent of a positive rational: the `e : ℤ` with `2^e ≤ q < 2^(e+1)`
(within the fuel range). -/
def ilog2 (q : ℚ) : ℤ :=
  if 1 ≤ q then (ilogUp ilogFuel q : ℤ) else -(ilogDown ilogFuel q : ℤ)

/-- Round a positive rational to the binary64 grid: significands carry 52
fractional bits, and the exponent is clamped below at -1022 (subnormal range,
grid step 2^-1074). -/
def roundPos (q : ℚ) : ℚ :=
  (rne (q * 2 ^ ((52 : ℤ) - max (ilog2 q) (-1022))) : ℚ) *
    2 ^ (max (ilog2 q) (-1022) - 52)

/-- The binary64 value nearest a rational (round to nearest, ties to even). -/
def roundToDouble (x : ℚ) : ℚ :=
  if x = 0 then 0
  else if x < 0 then -(roundPos (-x))
  else roundPos x

/-- Python float division `a / b` (IEEE binary64, round to nearest even). -/
def fdiv (a b : ℚ) : ℚ := roundToDouble (a / b)

/-- Python float multiplication `a * b` (IEEE binary64, round to nearest even). -/
def fmul (a b : ℚ) : ℚ := roundToDouble (a * b)

/-- Python `int(x)` on a float: truncation toward zero. -/
def pyInt (x : ℚ) : ℤ := if 0 ≤ x then ⌊x⌋ else ⌈x⌉

/-- Python `float(n)` conversion of an `int` operand of a float operation
(rounds when `|n| > 2^53`). -/
def pyFloat (n : ℤ) : ℚ := roundToDouble (n : ℚ)

/-! ## The question data model (`Question` dataclass, `main.py` lines 16–22) -/

/-- The `Question` dataclass: `options` and `correct_answer` default to `None`. -/
structure Question where
  id : ℤ
  text : String
  q_type : String
  options : Option (List String) := none
  correct_answer : Option String := none
  deriving Repr, DecidableEq

/-! ## The mock generator (`generate_mock_data`, `main.py` lines 50–97) -/

/-- Source line `num_essay = int(total_questions * (essay_percentage / 100))`;
Python evaluates this with `total_questions` converted to binary64, the division and
multiplication rounded to binary64, and `int` truncating toward zero. -/
def num_essay (total_questions : ℤ) (essay_percentage : ℚ) : ℤ :=
  pyInt (fmul (pyFloat total_questions) (fdiv essay_percentage 100))

/-- Source line `num_mc = total_questions - num_essay`. -/
def num_mc (total_questions : ℤ) (essay_percentage : ℚ) : ℤ :=
  total_questions - num_essay total_questions essay_percentage

/-- Vocabulary pool (declared in the source; unused by the generator loops). -/
def vocab : List String :=
  ["apple", "banana", "computer", "dog", "elephant", "flower", "garden",
   "house", "ice cream", "jungle"]

def grammar_q : List String :=
  ["She _____ to school every day.",
   "They _____ playing football now.",
   "_____ you like coffee?",
   "I have _____ seen that movie.",
   "He is the _____ student in class."]

def options_pool : List (List String) :=
  [["go", "goes", "going", "gone"],
   ["is", "am", "are", "be"],
   ["Do", "Does", "Did", "Done"],
   ["never", "ever", "fail", "not"],
   ["good", "better", "best", "well"]]

def essay_prompts : List String :=
  ["Write a short paragraph about your hobby.",
   "Describe your best friend.",
   "What did you do last summer?",
   "Why is learning English important?",
   "Describe your dream house."]

/-- The text template `f"Question {n}: {prompt} ({grade} Level)"` shared by
both generator loops. -/
def mkText (grade : String) (n : ℤ) (prompt : String) : String :=
  s!"Question {n}: {prompt} ({grade} Level)"

/-- One multiple-choice record: loop body of `for i in range(num_mc)`. -/
def mkMC (grade : String) (i : ℕ) : Question :=
  let q_idx := i % grammar_q.length
  let opts := options_pool.getD q_idx []
  { id := (i : ℤ) + 1
    text := mkText grade ((i : ℤ) + 1) (grammar_q.getD q_idx "")
    q_type := "MC"
    options := some opts
    correct_answer := some (opts.getD 1 "") }

/-- One essay record: loop body of `for i in range(num_essay)` with
`idx = num_mc + i + 1`. -/
def mkEssay (grade : String) (nmc : ℤ) (i : ℕ) : Question :=
  { id := nmc + (i : ℤ) + 1
    text := mkText grade (nmc + (i : ℤ) + 1)
      (essay_prompts.getD (i % essay_prompts.length) "")
    q_type := "Essay" }

/-- Model of `generate_mock_data(grade, total_questions, essay_percentage)`: the
multiple-choice loop runs first, the essay loop second, appending to the same
list.  A Python `range` over a negative count is empty, hence `Int.toNat`. -/
def generate_mock_data (grade : String) (total_questions : ℤ)
    (essay_percentage : ℚ) : List Question :=
  let nes := num_essay total_questions essay_percentage
  let nmc := num_mc total_questions essay_percentage
  (List.range nmc.toNat).map (mkMC grade) ++
    (List.range nes.toNat).map (mkEssay grade nmc)

/-! ## The PDF layout model (`create_pdf`, `main.py` lines 117–179)

The renderer is embedded as a state machine over the vertical cursor `y`.
Heights consumed by wrapped text (`multi_cell`) and by the argument-less
`pdf.ln()` depend on font metrics, so they are supplied by a `LayoutOracle`;
every other vertical movement in the source uses an explicit constant.
Horizontal positioning (`set_x`) does not affect pagination and is not
tracked.  The emitted `PdfEvent` trace records each placed block together
with the cursor position at which it was placed. -/

/-- Heights that depend on font metrics: `mch s` is the height consumed by
`multi_cell(0, 6, s)`, and `lnh` the height of the argument-less `pdf.ln()`. -/
structure LayoutOracle where
  mch : String → ℚ
  lnh : ℚ

inductive PdfEvent where
  | pageBreak
  | questionBlock (text : String) (y : ℚ)
  | optionsBlock (text : String) (y : ℚ)
  | essayRule (y : ℚ)
  deriving Repr, DecidableEq

/-- Vertical cursor position right after `add_page()` (fpdf2 default top
margin, 10 mm; the `header` hook of the `PDF` subclass is a no-op). -/
def topMargin : ℚ := 10

/-- Source line `labels = ["A", "B", "C", "D"]`. -/
def labels : List String := ["A", "B", "C", "D"]

/-- The `opt_str` accumulation loop: `for idx, opt in enumerate(q.options):
opt_str += f"{labels[idx]}. {opt}      "`.  Indexing `labels[idx]` raises
`IndexError` past the 4 labels, modelled by `none`. -/
def buildOptStr : List String → ℕ → Option String
  | [], _ => some ""
  | opt :: rest, idx =>
    match labels[idx]? with
    | none => none
    | some lab =>
      match buildOptStr rest (idx + 1) with
      | none => none
      | some s => some (lab ++ ". " ++ opt ++ "      " ++ s)

/-- Basic sanitization of the question text: the en dash (U+2013) is replaced
by a hyphen and the right single quote (U+2019) by the ASCII quote (U+0027). -/
def sanitize (s : String) : String :=
  (s.replace (String.singleton (Char.ofNat 8211)) (String.singleton (Char.ofNat 45))).replace
    (String.singleton (Char.ofNat 8217)) (String.singleton (Char.ofNat 39))

/-- The pagination check `if <cursor> > 250: pdf.add_page()`: past the
threshold the cursor resets to the top margin and a page break is emitted. -/
def pageGuard (y : ℚ) : ℚ × List PdfEvent :=
  if y > 250 then (topMargin, [PdfEvent.pageBreak]) else (y, [])

/-- The body of `for q in questions:` in `create_pdf`.  Returns the new
cursor position and the emitted events, or `none` when the Python code would
raise (iterating `None` options, or an `IndexError` on `labels`). -/
def renderQuestion (L : LayoutOracle) (point_text : String) (y0 : ℚ) (q : Question) :
    Option (ℚ × List PdfEvent) :=
  -- if pdf.get_y() > 250: pdf.add_page()
  let g1 := pageGuard y0
  -- pdf.multi_cell(0, 6, f"{qt_clean} ([{point_text}])")
  let qtext : String := sanitize q.text ++ " ([" ++ point_text ++ "])"
  let y2 := g1.1 + L.mch qtext
  if q.q_type = "MC" then
    match q.options with
    | none => none
    | some opts =>
      match buildOptStr opts 0 with
      | none => none
      | some opt_str =>
        -- pdf.ln(); if current_y > 250: pdf.add_page()
        let g2 := pageGuard (y2 + L.lnh)
        -- pdf.multi_cell(0, 6, opt_str); pdf.ln(2)
        some (g2.1 + L.mch opt_str + 2,
          g1.2 ++ [.questionBlock qtext g1.1] ++ g2.2 ++ [.optionsBlock opt_str g2.1])
  else if q.q_type = "Essay" then
    -- pdf.ln(30); pdf.line(...); pdf.ln(5)
    some (y2 + 30 + 5, g1.2 ++ [.questionBlock qtext g1.1, .essayRule (y2 + 30)])
  else
    some (y2, g1.2 ++ [.questionBlock qtext g1.1])

/-- The `for q in questions:` loop of `create_pdf`. -/
def renderAll (L : LayoutOracle) (point_text : String) :
    ℚ → List Question → Option (ℚ × List PdfEvent)
  | y, [] => some (y, [])
  | y, q :: qs =>
    match renderQuestion L point_text y q with
    | none => none
    | some (y1, es1) =>
      match renderAll L point_text y1 qs with
      | none => none
      | some (y2, es2) => some (y2, es1 ++ es2)

/-- Outcome of `create_pdf`: `ok` carries the layout trace of the serialized
document (`bytes(pdf.output())`), `noDocument` is the `return None` taken
when `pdf.add_font` raises `RuntimeError`, and `crash` is an uncaught
exception escaping the routine. -/
inductive RenderResult where
  | ok (events : List PdfEvent)
  | noDocument
  | crash
  deriving Repr, DecidableEq

/-- Model of `create_pdf(questions, grade, duration_str, score_per_q)`.  Font
provisioning and registration is abstracted by `registerOk` (`pdf.add_font`
raising `RuntimeError` after `download_font_if_missing` could not supply a
usable file).  `point_text` stands for the formatted
`f"{score_per_q:.2f} điểm"` string.  After the initial `add_page`, the two
centred title cells advance the cursor by 10 each and `pdf.ln(5)` by 5. -/
def create_pdf (L : LayoutOracle) (registerOk : Bool) (questions : List Question)
    (grade : String) (duration_str : String) (point_text : String) : RenderResult :=
  if !registerOk then RenderResult.noDocument
  else
    match renderAll L point_text (topMargin + 10 + 10 + 5) questions with
    | none => RenderResult.crash
    | some (_, events) => RenderResult.ok (PdfEvent.pageBreak :: events)

/-- The guard `if pdf_bytes:` in `main` (lines 251–257): the download button
is offered only for a truthy (non-`None`) result; a crash propagates out of
`main` before the guard is reached. -/
def downloadOffered : RenderResult → Bool
  | .ok _ => true
  | .noDocument => false
  | .crash => false

/-- A placed block respects the near-bottom pagination threshold. -/
def placedInPage : PdfEvent → Prop
  | .questionBlock _ y => y ≤ 250
  | .optionsBlock _ y => y ≤ 250
  | _ => True

/-- Every question/options block in a successfully rendered document sits at
a cursor position within the threshold. -/
def placementsOk : RenderResult → Prop
  | .ok evs => ∀ e ∈ evs, placedInPage e
  | .noDocument => True
  | .crash => True

/-! ## The font provisioner (`download_font_if_missing`, `main.py` lines 26–48) -/

def FONT_URL : String :=
  "https://raw.githubusercontent.com/google/fonts/main/ofl/roboto/Roboto-Regular.ttf"

def FONT_FILENAME : String := "arial.ttf"

def SYSTEM_FONT_PATH : String := "C:/Windows/Fonts/arial.ttf"

/-- File-system state observed by the provisioner. -/
structure FontFs where
  cacheExists : Bool
  systemExists : Bool
  deriving Repr, DecidableEq

/-- Observable side effects of one provisioner call. -/
inductive FontEffect where
  | write (path : String)
  | netGet (url : String)
  | warnMsg
  | errorMsg
  deriving Repr, DecidableEq

/-- Step 2 of the provisioner: `requests.get(FONT_URL, timeout=10)` and the
cache write on success; any exception is caught and reported via
`st.error` (no write happens). -/
def downloadStep (fs : FontFs) (downloadOk : Bool) : FontFs × List FontEffect :=
  if downloadOk then
    ({ fs with cacheExists := true }, [.netGet FONT_URL, .write FONT_FILENAME])
  else (fs, [.netGet FONT_URL, .errorMsg])

/-- Model of `download_font_if_missing()`: return early when the cache file exists;
try copying the system font (a failed copy is caught, warned about, and falls
through to the download); otherwise download.  `copyOk`/`downloadOk` stand
for the success of `shutil.copy` and of the HTTP fetch. -/
def download_font_if_missing (fs : FontFs) (copyOk downloadOk : Bool) :
    FontFs × List FontEffect :=
  if fs.cacheExists then (fs, [])
  else if fs.systemExists then
    if copyOk then ({ fs with cacheExists := true }, [.write FONT_FILENAME])
    else ((downloadStep fs downloadOk).1, FontEffect.warnMsg :: (downloadStep fs downloadOk).2)
  else downloadStep fs downloadOk

/-- The writes contained in an effect trace. -/
def writesOf (es : List FontEffect) : List String :=
  es.filterMap fun e => match e with
    | .write p => some p
    | _ => none

/-! ## Bounds on the rounding model

The universal claims need only two facts about `roundToDouble` on the range
of values this program produces (all of magnitude at most 1024 = 2^10):
it moves its argument by at most 2^-43, and it preserves nonnegativity. -/

theorem rne_le (x : ℚ) : (rne x : ℚ) ≤ x + 1/2 := by
  have hfl := Int.floor_le x
  have hlt := Int.lt_floor_add_one x
  unfold rne
  split_ifs with h1 h2 h3 <;> push_cast <;> linarith

theorem rne_ge (x : ℚ) : x - 1/2 ≤ (rne x : ℚ) := by
  have hfl := Int.floor_le x
  have hlt := Int.lt_floor_add_one x
  unfold rne
  split_ifs with h1 h2 h3 <;> push_cast <;> linarith

theorem rne_nonneg (x : ℚ) (h : 0 ≤ x) : (0 : ℤ) ≤ rne x := by
  have hfl : (0 : ℤ) ≤ ⌊x⌋ := Int.floor_nonneg.mpr h
  unfold rne
  split_ifs with h1 h2 h3 <;> omega

theorem ilogUp_le (fuel : ℕ) : ∀ (q : ℚ) (k : ℕ), q ≤ 2 ^ k → ilogUp fuel q ≤ k := by
  induction fuel with
  | zero => intro q k _; exact Nat.zero_le k
  | succ fuel ih =>
    intro q k hk
    unfold ilogUp
    split_ifs with h
    · exact Nat.zero_le k
    · match k with
      | 0 => exact absurd (by linarith [hk] : q < 2) h
      | k + 1 =>
        have hq2 : q / 2 ≤ 2 ^ k := by
          rw [div_le_iff (by norm_num : (0:ℚ) < 2)]
          calc q ≤ 2 ^ (k + 1) := hk
            _ = 2 ^ k * 2 := by ring
        exact Nat.succ_le_succ (ih (q / 2) k hq2)

theorem ilog2_le {q : ℚ} {k : ℕ} (h : q ≤ 2 ^ k) : ilog2 q ≤ (k : ℤ) := by
  unfold ilog2
  split_ifs with h1
  · exact_mod_cast ilogUp_le ilogFuel q k h
  · have : (0 : ℤ) ≤ (ilogDown ilogFuel q : ℤ) := Int.natCast_nonneg _
    omega

theorem roundPos_nonneg (q : ℚ) (h : 0 ≤ q) : 0 ≤ roundPos q := by
  unfold roundPos
  have h1 : (0:ℚ) ≤ q * 2 ^ ((52 : ℤ) - max (ilog2 q) (-1022)) :=
    mul_nonneg h (zpow_nonneg (by norm_num) _)
  exact mul_nonneg (by exact_mod_cast rne_nonneg _ h1) (zpow_nonneg (by norm_num) _)

theorem roundPos_le (q : ℚ) (hk : q ≤ 2 ^ (10:ℕ)) :
    roundPos q ≤ q + 2 ^ ((-43 : ℤ)) := by
  unfold roundPos
  set e : ℤ := max (ilog2 q) (-1022) with he
  have hE : e ≤ 10 := max_le (by exact_mod_cast ilog2_le hk) (by norm_num)
  have hz : (0:ℚ) < 2 ^ (e - 52) := zpow_pos (by norm_num) _
  have step1 : (rne (q * 2 ^ ((52 : ℤ) - e)) : ℚ) * 2 ^ (e - 52)
      ≤ (q * 2 ^ ((52 : ℤ) - e) + 1/2) * 2 ^ (e - 52) :=
    mul_le_mul_of_nonneg_right (rne_le _) hz.le
  have hcancel : q * 2 ^ ((52 : ℤ) - e) * 2 ^ (e - 52) = q := by
    rw [mul_assoc, ← zpow_add₀ (by norm_num : (2:ℚ) ≠ 0)]
    norm_num
  have hhalf : (1/2 : ℚ) * 2 ^ (e - 52) = 2 ^ (e - 53) := by
    have : (1/2 : ℚ) = 2 ^ ((-1 : ℤ)) := by norm_num
    rw [this, ← zpow_add₀ (by norm_num : (2:ℚ) ≠ 0)]
    ring_nf
  have hmono : (2:ℚ) ^ (e - 53) ≤ 2 ^ ((-43 : ℤ)) :=
    zpow_le_zpow_right₀ (by norm_num) (by omega)
  calc (rne (q * 2 ^ ((52 : ℤ) - e)) : ℚ) * 2 ^ (e - 52)
      ≤ (q * 2 ^ ((52 : ℤ) - e) + 1/2) * 2 ^ (e - 52) := step1
    _ = q + (1/2) * 2 ^ (e - 52) := by rw [add_mul, hcancel]
    _ = q + 2 ^ (e - 53) := by rw [hhalf]
    _ ≤ q + 2 ^ ((-43 : ℤ)) := by linarith

theorem roundPos_ge (q : ℚ) (hk : q ≤ 2 ^ (10:ℕ)) :
    q - 2 ^ ((-43 : ℤ)) ≤ roundPos q := by
  unfold roundPos
  set e : ℤ := max (ilog2 q) (-1022) with he
  have hE : e ≤ 10 := max_le (by exact_mod_cast ilog2_le hk) (by norm_num)
  have hz : (0:ℚ) < 2 ^ (e - 52) := zpow_pos (by norm_num) _
  have step1 : (q * 2 ^ ((52 : ℤ) - e) - 1/2) * 2 ^ (e - 52)
      ≤ (rne (q * 2 ^ ((52 : ℤ) - e)) : ℚ) * 2 ^ (e - 52) :=
    mul_le_mul_of_nonneg_right (rne_ge _) hz.le
  have hcancel : q * 2 ^ ((52 : ℤ) - e) * 2 ^ (e - 52) = q := by
    rw [mul_assoc, ← zpow_add₀ (by norm_num : (2:ℚ) ≠ 0)]
    norm_num
  have hhalf : (1/2 : ℚ) * 2 ^ (e - 52) = 2 ^ (e - 53) := by
    have : (1/2 : ℚ) = 2 ^ ((-1 : ℤ)) := by norm_num
    rw [this, ← zpow_add₀ (by norm_num : (2:ℚ) ≠ 0)]
    ring_nf
  have hmono : (2:ℚ) ^ (e - 53) ≤ 2 ^ ((-43 : ℤ)) :=
    zpow_le_zpow_right₀ (by norm_num) (by omega)
  have expand : (q * 2 ^ ((52 : ℤ) - e) - 1/2) * 2 ^ (e - 52)
      = q - 2 ^ (e - 53) := by
    rw [sub_mul, hcancel, hhalf]
  linarith [step1, expand]

theorem roundToDouble_nonneg (x : ℚ) (h : 0 ≤ x) : 0 ≤ roundToDouble x := by
  unfold roundToDouble
  split_ifs with h1 h2
  · exact le_refl 0
  · exact absurd h2 (not_lt.mpr h)
  · exact roundPos_nonneg x h

theorem roundToDouble_le (x : ℚ) (h0 : 0 ≤ x) (h1 : x ≤ 2 ^ (10:ℕ)) :
    roundToDouble x ≤ x + 2 ^ ((-43 : ℤ)) := by
  unfold roundToDouble
  split_ifs with hz hn
  · rw [hz]; positivity
  · exact absurd hn (not_lt.mpr h0)
  · exact roundPos_le x h1

theorem roundToDouble_ge (x : ℚ) (h0 : 0 ≤ x) (h1 : x ≤ 2 ^ (10:ℕ)) :
    x - 2 ^ ((-43 : ℤ)) ≤ roundToDouble x := by
  unfold roundToDouble
  split_ifs with hz hn
  · have hp : (0:ℚ) ≤ 2 ^ ((-43 : ℤ)) := by positivity
    rw [hz]
    linarith
  · exact absurd hn (not_lt.mpr h0)
  · exact roundPos_ge x h1

theorem pyInt_eq_floor (x : ℚ) (h : 0 ≤ x) : pyInt x = ⌊x⌋ := by
  unfold pyInt
  exact if_pos h

theorem num_essay_nonneg (t : ℤ) (p : ℚ) (ht : 0 ≤ t) (hp : 0 ≤ p) :
    0 ≤ num_essay t p := by
  have hr : 0 ≤ fdiv p 100 := roundToDouble_nonneg _ (by positivity)
  have hft : 0 ≤ pyFloat t := roundToDouble_nonneg _ (by exact_mod_cast ht)
  have hx : 0 ≤ fmul (pyFloat t) (fdiv p 100) :=
    roundToDouble_nonneg _ (mul_nonneg hft hr)
  unfold num_essay
  rw [pyInt_eq_floor _ hx]
  exact Int.floor_nonneg.mpr hx

/-- The float-computed essay count lies within one unit of the exact real
value `total * pct / 100`, and between `0` and `total`, whenever
`1 ≤ total ≤ 1000` and `0 ≤ pct ≤ 100`. -/
theorem num_essay_bounds (t : ℤ) (p : ℚ) (ht1 : 1 ≤ t) (ht2 : t ≤ 1000)
    (hp0 : 0 ≤ p) (hp1 : p ≤ 100) :
    num_essay t p ≤ t ∧
    ⌊(t : ℚ) * (p / 100)⌋ - 1 ≤ num_essay t p ∧
    num_essay t p ≤ ⌊(t : ℚ) * (p / 100)⌋ + 1 := by
  have hεval : (2:ℚ) ^ ((-43 : ℤ)) = 1 / 8796093022208 := by norm_num
  have htQ1 : (1:ℚ) ≤ (t:ℚ) := by exact_mod_cast ht1
  have htQ2 : (t:ℚ) ≤ 1000 := by exact_mod_cast ht2
  have hq0 : (0:ℚ) ≤ p / 100 := by positivity
  have hq1 : p / 100 ≤ 1 := by
    rw [div_le_one (by norm_num : (0:ℚ) < 100)]; exact hp1
  -- bounds on r = fdiv p 100
  have hr0 : 0 ≤ fdiv p 100 := roundToDouble_nonneg _ hq0
  have hrle : fdiv p 100 ≤ p / 100 + 2 ^ ((-43 : ℤ)) :=
    roundToDouble_le _ hq0 (by norm_num; linarith)
  have hrge : p / 100 - 2 ^ ((-43 : ℤ)) ≤ fdiv p 100 :=
    roundToDouble_ge _ hq0 (by norm_num; linarith)
  -- bounds on ft = pyFloat t
  have hft0 : 0 ≤ pyFloat t := roundToDouble_nonneg _ (by linarith)
  have hftle : pyFloat t ≤ (t:ℚ) + 2 ^ ((-43 : ℤ)) :=
    roundToDouble_le _ (by linarith) (by norm_num; linarith)
  have hftge : (t:ℚ) - 2 ^ ((-43 : ℤ)) ≤ pyFloat t :=
    roundToDouble_ge _ (by linarith) (by norm_num; linarith)
  rw [hεval] at hrle hrge hftle hftge
  have hr2 : fdiv p 100 ≤ 2 := by linarith
  have hft1001 : pyFloat t ≤ 1001 := by linarith
  -- bounds on the product x = ft * r versus the exact product
  set ft := pyFloat t with hft_def
  set r := fdiv p 100 with hr_def
  clear_value ft r
  have hx0 : 0 ≤ ft * r := mul_nonneg hft0 hr0
  have hb1 : (ft - t) * r ≤ (1/8796093022208 : ℚ) * 2 := by
    calc (ft - t) * r ≤ (1/8796093022208 : ℚ) * r :=
          mul_le_mul_of_nonneg_right (by linarith) hr0
      _ ≤ (1/8796093022208 : ℚ) * 2 := by linarith
  have hb2 : (t:ℚ) * (r - p/100) ≤ 1000 * (1/8796093022208 : ℚ) := by
    calc (t:ℚ) * (r - p/100) ≤ (t:ℚ) * (1/8796093022208 : ℚ) :=
          mul_le_mul_of_nonneg_left (by linarith) (by linarith)
      _ ≤ 1000 * (1/8796093022208 : ℚ) := by linarith
  have hsplit1 : ft * r - (t:ℚ) * (p/100) = (ft - t) * r + (t:ℚ) * (r - p/100) := by
    ring
  have hxub : ft * r ≤ (t:ℚ) * (p/100) + 1002 * (1/8796093022208 : ℚ) := by linarith
  have hb3 : ((t:ℚ) - ft) * (p/100) ≤ (1/8796093022208 : ℚ) * 1 := by
    calc ((t:ℚ) - ft) * (p/100) ≤ (1/8796093022208 : ℚ) * (p/100) :=
          mul_le_mul_of_nonneg_right (by linarith) hq0
      _ ≤ (1/8796093022208 : ℚ) * 1 := by linarith
  have hb4 : ft * (p/100 - r) ≤ 1001 * (1/8796093022208 : ℚ) := by
    calc ft * (p/100 - r) ≤ ft * (1/8796093022208 : ℚ) :=
          mul_le_mul_of_nonneg_left (by linarith) hft0
      _ ≤ 1001 * (1/8796093022208 : ℚ) := by linarith
  have hsplit2 : (t:ℚ) * (p/100) - ft * r
      = ((t:ℚ) - ft) * (p/100) + ft * (p/100 - r) := by
    ring
  have hxlb : (t:ℚ) * (p/100) - 1002 * (1/8796093022208 : ℚ) ≤ ft * r := by linarith
  -- the rounded product fx
  have htpt : (t:ℚ) * (p/100) ≤ (t:ℚ) := by
    calc (t:ℚ) * (p/100) ≤ (t:ℚ) * 1 := mul_le_mul_of_nonneg_left hq1 (by linarith)
      _ = (t:ℚ) := mul_one _
  have htp1000 : (t:ℚ) * (p/100) ≤ 1000 := by linarith
  have hx1024 : ft * r ≤ 2 ^ (10:ℕ) := by norm_num; linarith
  have hfxle : fmul ft r ≤ ft * r + 2 ^ ((-43 : ℤ)) := roundToDouble_le _ hx0 hx1024
  have hfxge : ft * r - 2 ^ ((-43 : ℤ)) ≤ fmul ft r := roundToDouble_ge _ hx0 hx1024
  rw [hεval] at hfxle hfxge
  have hfx0 : 0 ≤ fmul ft r := roundToDouble_nonneg _ hx0
  have hne : num_essay t p = ⌊fmul ft r⌋ := by
    unfold num_essay
    rw [← hft_def, ← hr_def, pyInt_eq_floor _ hfx0]
  refine ⟨?_, ?_, ?_⟩
  · -- num_essay ≤ t
    have hlt : fmul ft r < ((t + 1 : ℤ) : ℚ) := by
      push_cast
      linarith
    rw [hne]
    have := Int.floor_lt.mpr hlt
    omega
  · -- floor - 1 ≤ num_essay
    have hlt : (t:ℚ) * (p/100) < ((⌊fmul ft r⌋ + 2 : ℤ) : ℚ) := by
      push_cast
      have hfl := Int.lt_floor_add_one (fmul ft r)
      linarith
    have := Int.floor_lt.mpr hlt
    rw [hne]
    omega
  · -- num_essay ≤ floor + 1
    have hle : fmul ft r ≤ (t:ℚ) * (p/100) + 1 := by linarith
    have h2 : ⌊fmul ft r⌋ ≤ ⌊(t:ℚ) * (p/100) + 1⌋ := Int.floor_le_floor hle
    rw [hne]
    have h3 : ⌊(t:ℚ) * (p/100) + 1⌋ = ⌊(t:ℚ) * (p/100)⌋ + 1 := by
      rw [show ((1:ℚ)) = ((1:ℤ):ℚ) by norm_num, Int.floor_add_int]
    omega

/-! ## Structure of the generated list -/

theorem generate_eq (g : String) (t : ℤ) (p : ℚ) :
    generate_mock_data g t p
      = (List.range (num_mc t p).toNat).map (mkMC g) ++
        (List.range (num_essay t p).toNat).map (mkEssay g (num_mc t p)) := rfl

/-- Each of the five option pools has exactly four entries, and the entry at
index 1 (the hard-coded "correct" one) is a non-empty string. -/
theorem pool_wf : ∀ j, j < 5 →
    (options_pool.getD j []).length = 4 ∧ (options_pool.getD j []).getD 1 "" ≠ "" := by
  with_unfolding_all decide

theorem mkMC_wf (g : String) (i : ℕ) :
    (mkMC g i).q_type = "MC" ∧
    (mkMC g i).options = some (options_pool.getD (i % grammar_q.length) []) ∧
    (options_pool.getD (i % grammar_q.length) []).length = 4 ∧
    (mkMC g i).correct_answer = some ((options_pool.getD (i % grammar_q.length) []).getD 1 "") ∧
    (options_pool.getD (i % grammar_q.length) []).getD 1 "" ≠ "" := by
  have h5 : i % grammar_q.length < 5 := by
    have hg : grammar_q.length = 5 := rfl
    rw [hg]
    exact Nat.mod_lt _ (by norm_num)
  obtain ⟨hlen, hne⟩ := pool_wf _ h5
  exact ⟨rfl, rfl, hlen, rfl, hne⟩

theorem generate_mem {g : String} {t : ℤ} {p : ℚ} {q : Question}
    (h : q ∈ generate_mock_data g t p) :
    (∃ i, q = mkMC g i) ∨ ∃ i, q = mkEssay g (num_mc t p) i := by
  rw [generate_eq] at h
  rcases List.mem_append.mp h with h1 | h1
  · obtain ⟨i, -, rfl⟩ := List.mem_map.mp h1
    exact Or.inl ⟨i, rfl⟩
  · obtain ⟨i, -, rfl⟩ := List.mem_map.mp h1
    exact Or.inr ⟨i, rfl⟩

theorem generate_getElem_mc {g : String} {t : ℤ} {p : ℚ} {k : ℕ} {q : Question}
    (h : (generate_mock_data g t p)[k]? = some q) (hk : k < (num_mc t p).toNat) :
    q = mkMC g k := by
  rw [generate_eq] at h
  rw [List.getElem?_append_left (by simpa using hk)] at h
  rw [List.getElem?_map, List.getElem?_range (by simpa using hk)] at h
  exact (Option.some.inj h).symm

theorem generate_getElem_essay {g : String} {t : ℤ} {p : ℚ} {k : ℕ} {q : Question}
    (h : (generate_mock_data g t p)[k]? = some q) (hk : (num_mc t p).toNat ≤ k) :
    q = mkEssay g (num_mc t p) (k - (num_mc t p).toNat) := by
  rw [generate_eq] at h
  rw [List.getElem?_append_right (by simpa using hk)] at h
  simp only [List.length_map, List.length_range] at h
  rw [List.getElem?_map] at h
  cases hr : (List.range (num_essay t p).toNat)[k - (num_mc t p).toNat]? with
  | none => rw [hr] at h; exact Option.noConfusion h
  | some v =>
    rw [hr] at h
    obtain ⟨hlt, hv⟩ := List.getElem?_eq_some_iff.mp hr
    rw [List.getElem_range] at hv
    rw [hv]
    exact (Option.some.inj h).symm

theorem generate_length (g : String) (t : ℤ) (p : ℚ) :
    (generate_mock_data g t p).length = (num_mc t p).toNat + (num_essay t p).toNat := by
  rw [generate_eq]
  simp [List.length_append, List.length_map, List.length_range]

/-! ## Claims -/

/-- C1 (counterexample): at `total = 100`, `pct = 29` the claimed identity
`essayCount == floor(total * pct / 100)` fails on the code: binary64
arithmetic yields `int(100 * (29/100)) = 28`, while the exact floor is 29.
So the claim "for every totalQuestions in [1,1000] and essayPercentage in
[0,100] the counts satisfy essayCount == floor(...)" is false as stated. -/
theorem claim_c1_counterexample :
    ¬ (num_essay 100 29 = ⌊(100 : ℚ) * 29 / 100⌋ ∧
       num_mc 100 29 + num_essay 100 29 = 100 ∧ 0 ≤ num_mc 100 29) ∧
    num_essay 100 29 = 28 ∧ ⌊(100 : ℚ) * 29 / 100⌋ = 29 := by
  with_unfolding_all decide

/-- C1 (amended): for every `totalQuestions ∈ [1, 1000]` and
`essayPercentage ∈ [0, 100]`, the counts satisfy
`mcCount + essayCount = totalQuestions`, `mcCount ≥ 0`,
`0 ≤ essayCount ≤ totalQuestions`, and `essayCount` equals the binary64
evaluation `int(total * (pct/100))`, which lies within one unit of
`floor(total * pct / 100)` (it can fall one below it, as at
`total = 100, pct = 29`). -/
theorem claim_c1_amended (t : ℤ) (p : ℚ) (h1 : 1 ≤ t) (h2 : t ≤ 1000)
    (h3 : 0 ≤ p) (h4 : p ≤ 100) :
    num_mc t p + num_essay t p = t ∧ 0 ≤ num_mc t p ∧
    0 ≤ num_essay t p ∧ num_essay t p ≤ t ∧
    ⌊(t : ℚ) * p / 100⌋ - 1 ≤ num_essay t p ∧
    num_essay t p ≤ ⌊(t : ℚ) * p / 100⌋ + 1 := by
  obtain ⟨hle, hlb, hub⟩ := num_essay_bounds t p h1 h2 h3 h4
  have h0 := num_essay_nonneg t p (by omega) h3
  have hconv : (t : ℚ) * p / 100 = (t : ℚ) * (p / 100) := by ring
  rw [hconv]
  unfold num_mc
  exact ⟨by ring, by omega, h0, hle, hlb, hub⟩

theorem claim_c1_witness :
    ((1 : ℤ) ≤ 70 ∧ (70 : ℤ) ≤ 1000 ∧ (0 : ℚ) ≤ 30 ∧ (30 : ℚ) ≤ 100) ∧
    (num_mc 70 30 + num_essay 70 30 = 70 ∧ 0 ≤ num_mc 70 30 ∧
     0 ≤ num_essay 70 30 ∧ num_essay 70 30 ≤ 70 ∧
     ⌊(70 : ℚ) * 30 / 100⌋ - 1 ≤ num_essay 70 30 ∧
     num_essay 70 30 ≤ ⌊(70 : ℚ) * 30 / 100⌋ + 1) :=
  ⟨⟨by norm_num, by norm_num, by norm_num, by norm_num⟩,
   claim_c1_amended 70 30 (by norm_num) (by norm_num) (by norm_num) (by norm_num)⟩

/-- C3: every record produced by `generate_mock_data` satisfies the kind
invariant: an `"MC"` record has exactly 4 options and a non-empty correct
answer; an `"Essay"` record has no options and no correct answer. -/
theorem claim_c3 {g : String} {t : ℤ} {p : ℚ} {q : Question}
    (h : q ∈ generate_mock_data g t p) :
    (q.q_type = "MC" →
      (∃ opts, q.options = some opts ∧ opts.length = 4) ∧
      ∃ c, q.correct_answer = some c ∧ c ≠ "") ∧
    (q.q_type = "Essay" → q.options = none ∧ q.correct_answer = none) := by
  rcases generate_mem h with ⟨i, rfl⟩ | ⟨i, rfl⟩
  · obtain ⟨hty, hopts, hlen, hca, hne⟩ := mkMC_wf g i
    refine ⟨fun _ => ⟨⟨_, hopts, hlen⟩, _, hca, hne⟩, fun hty2 => ?_⟩
    rw [hty] at hty2
    exact absurd hty2 (by decide)
  · have hty : (mkEssay g (num_mc t p) i).q_type = "Essay" := rfl
    refine ⟨fun hty2 => ?_, fun _ => ⟨rfl, rfl⟩⟩
    rw [hty] at hty2
    exact absurd hty2 (by decide)

theorem claim_c3_witness :
    (mkMC "G" 0 ∈ generate_mock_data "G" 1 0) ∧
    (((mkMC "G" 0).q_type = "MC" →
      (∃ opts, (mkMC "G" 0).options = some opts ∧ opts.length = 4) ∧
      ∃ c, (mkMC "G" 0).correct_answer = some c ∧ c ≠ "") ∧
    ((mkMC "G" 0).q_type = "Essay" →
      (mkMC "G" 0).options = none ∧ (mkMC "G" 0).correct_answer = none)) :=
  ⟨by with_unfolding_all decide,
   claim_c3 (g := "G") (t := 1) (p := 0) (by with_unfolding_all decide)⟩

/-- C4: the generator is deterministic — two evaluations with identical
arguments agree field by field on every record (the embedding is a pure
function of its arguments; the source selects templates by index cycling and
never calls the imported `random` module). -/
theorem claim_c4 (g : String) (t : ℤ) (p : ℚ) :
    List.Forall₂
      (fun a b => a.id = b.id ∧ a.text = b.text ∧ a.q_type = b.q_type ∧
        a.options = b.options ∧ a.correct_answer = b.correct_answer)
      (generate_mock_data g t p) (generate_mock_data g t p) :=
  List.forall₂_same.mpr fun _ _ => ⟨rfl, rfl, rfl, rfl, rfl⟩

/-- C5: in every multiple-choice record the stored correct answer is exactly
the option at index 1 of its 4-option list (`correct = opts[1]`). -/
theorem claim_c5 {g : String} {t : ℤ} {p : ℚ} {q : Question}
    (h : q ∈ generate_mock_data g t p) (hmc : q.q_type = "MC") :
    ∃ opts, q.options = some opts ∧ opts.length = 4 ∧
      q.correct_answer = opts[1]? := by
  rcases generate_mem h with ⟨i, rfl⟩ | ⟨i, rfl⟩
  · obtain ⟨-, hopts, hlen, hca, -⟩ := mkMC_wf g i
    refine ⟨options_pool.getD (i % grammar_q.length) [], hopts, hlen, ?_⟩
    rw [hca]
    have h1 : (1 : ℕ) < (options_pool.getD (i % grammar_q.length) []).length := by
      rw [hlen]; norm_num
    rw [List.getD_eq_getElem?_getD, List.getElem?_eq_getElem h1]
    rfl
  · have hty : (mkEssay g (num_mc t p) i).q_type = "Essay" := rfl
    rw [hty] at hmc
    exact absurd hmc (by decide)

theorem claim_c5_witness :
    (mkMC "G" 0 ∈ generate_mock_data "G" 1 0) ∧ (mkMC "G" 0).q_type = "MC" ∧
    (∃ opts, (mkMC "G" 0).options = some opts ∧ opts.length = 4 ∧
      (mkMC "G" 0).correct_answer = opts[1]?) :=
  ⟨by with_unfolding_all decide, rfl,
   claim_c5 (g := "G") (t := 1) (p := 0) (by with_unfolding_all decide) rfl⟩

/-- C10: essay prompts are cycled by the position of the essay among the essay
records alone: the record at (0-based) position `j` within the essays carries
the prompt at index `j % 5` of the fixed 5-prompt pool, independently of the
number of multiple-choice records before it.  In particular the first essay
always carries the first prompt. -/
theorem claim_c10 {g : String} {t : ℤ} {p : ℚ} {j : ℕ} {q : Question}
    (h : ((generate_mock_data g t p).filter (fun r => r.q_type == "Essay"))[j]? = some q) :
    q.text = mkText g (num_mc t p + (j : ℤ) + 1) (essay_prompts.getD (j % 5) "") := by
  have hfil : (generate_mock_data g t p).filter (fun r => r.q_type == "Essay")
      = (List.range (num_essay t p).toNat).map (mkEssay g (num_mc t p)) := by
    rw [generate_eq, List.filter_append]
    have h1 : (List.map (mkMC g) (List.range (num_mc t p).toNat)).filter
        (fun r => r.q_type == "Essay") = [] := by
      rw [List.filter_eq_nil_iff]
      intro a ha
      obtain ⟨i, -, rfl⟩ := List.mem_map.mp ha
      rw [show ((mkMC g i).q_type == "Essay") = false from rfl]
      simp
    have h2 : (List.map (mkEssay g (num_mc t p)) (List.range (num_essay t p).toNat)).filter
        (fun r => r.q_type == "Essay")
        = List.map (mkEssay g (num_mc t p)) (List.range (num_essay t p).toNat) := by
      rw [List.filter_eq_self]
      intro a ha
      obtain ⟨i, -, rfl⟩ := List.mem_map.mp ha
      rfl
    rw [h1, h2, List.nil_append]
  rw [hfil, List.getElem?_map] at h
  cases hr : (List.range (num_essay t p).toNat)[j]? with
  | none => rw [hr] at h; exact Option.noConfusion h
  | some v =>
    rw [hr] at h
    obtain ⟨hlt, hv⟩ := List.getElem?_eq_some_iff.mp hr
    rw [List.getElem_range] at hv
    have hq : q = mkEssay g (num_mc t p) j := by
      rw [hv]
      exact (Option.some.inj h).symm
    rw [hq]
    rfl

theorem claim_c10_witness :
    (((generate_mock_data "G" 1 100).filter (fun r => r.q_type == "Essay"))[0]?
        = some (mkEssay "G" 0 0)) ∧
    (mkEssay "G" 0 0).text
        = mkText "G" (num_mc 1 100 + ((0 : ℕ) : ℤ) + 1) (essay_prompts.getD (0 % 5) "") :=
  ⟨by with_unfolding_all decide,
   claim_c10 (g := "G") (t := 1) (p := 100) (by with_unfolding_all decide)⟩

/-- C2 (counterexample): the claim quantifies over every positive
`totalQuestions`, but at `total = 2^53 + 3, pct = 100` the Python int-to-float
conversion rounds the total up to `2^53 + 4`, making `num_essay = 2^53 + 4`
and `num_mc = -1`; the essay ids then start at 0, so the ids are not the
sequence `1..total`. -/
theorem claim_c2_counterexample :
    ¬ ((generate_mock_data "G" (2 ^ 53 + 3) 100).map Question.id
        = (List.range (2 ^ 53 + 3 : ℤ).toNat).map (fun j : ℕ => (j : ℤ) + 1)) := by
  intro hmap
  have hnes : num_essay (2 ^ 53 + 3) 100 = 2 ^ 53 + 4 := by
    with_unfolding_all decide
  have hnmc : num_mc (2 ^ 53 + 3) 100 = -1 := by
    unfold num_mc
    rw [hnes]
    norm_num
  have hL : ((generate_mock_data "G" (2 ^ 53 + 3) 100).map Question.id)[0]?
      = some 0 := by
    rw [generate_eq, hnes, hnmc]
    rw [show ((-1 : ℤ)).toNat = 0 from rfl]
    rw [show List.range 0 = ([] : List ℕ) from rfl]
    rw [show (List.map (mkMC "G") [] : List Question) = [] from rfl, List.nil_append]
    rw [List.map_map, List.getElem?_map, List.getElem?_range (by norm_num)]
    rfl
  have hR : (((List.range (2 ^ 53 + 3 : ℤ).toNat).map (fun j : ℕ => (j : ℤ) + 1)))[0]?
      = some 1 := by
    rw [List.getElem?_map, List.getElem?_range (by norm_num)]
    rfl
  rw [hmap, hR] at hL
  exact absurd (Option.some.inj hL) (by norm_num)

/-- C2 (amended): for every config with `0 < totalQuestions ≤ 1000` and
`essayPercentage ∈ [0, 100]` — the totals the spec ranges over; unbounded
totals fail by the counterexample — the generated ids are exactly the
sequence `1..total` in order, the id of each record is its position + 1, and no
essay record ever precedes a multiple-choice record. -/
theorem claim_c2_amended (g : String) (t : ℤ) (p : ℚ) (h1 : 0 < t) (h2 : t ≤ 1000)
    (h3 : 0 ≤ p) (h4 : p ≤ 100) :
    (generate_mock_data g t p).map Question.id
      = (List.range t.toNat).map (fun j : ℕ => (j : ℤ) + 1) ∧
    (∀ (j : ℕ) (q : Question),
      (generate_mock_data g t p)[j]? = some q → q.id = (j : ℤ) + 1) ∧
    (∀ (i j : ℕ) (qi qj : Question),
      (generate_mock_data g t p)[i]? = some qi →
      (generate_mock_data g t p)[j]? = some qj →
      qi.q_type = "Essay" → qj.q_type = "MC" → j < i) := by
  obtain ⟨hle, -, -⟩ := num_essay_bounds t p (by omega) h2 h3 h4
  have h0 := num_essay_nonneg t p (by omega) h3
  have hmc0 : 0 ≤ num_mc t p := by unfold num_mc; omega
  have ha : ((num_mc t p).toNat : ℤ) = num_mc t p := Int.toNat_of_nonneg hmc0
  have hb : ((num_essay t p).toNat : ℤ) = num_essay t p := Int.toNat_of_nonneg h0
  have hab : (num_mc t p).toNat + (num_essay t p).toNat = t.toNat := by
    unfold num_mc at ha ⊢
    omega
  have hmap : (generate_mock_data g t p).map Question.id
      = (List.range t.toNat).map (fun j : ℕ => (j : ℤ) + 1) := by
    have hmc_map : List.map (Question.id ∘ mkMC g) (List.range (num_mc t p).toNat)
        = List.map (fun j : ℕ => (j : ℤ) + 1) (List.range (num_mc t p).toNat) :=
      List.map_congr_left fun i _ => rfl
    have hes_map : List.map (Question.id ∘ mkEssay g (num_mc t p))
          (List.range (num_essay t p).toNat)
        = List.map ((fun j : ℕ => (j : ℤ) + 1) ∘ (fun x => (num_mc t p).toNat + x))
          (List.range (num_essay t p).toNat) := by
      refine List.map_congr_left fun i _ => ?_
      show num_mc t p + (i : ℤ) + 1 = (((num_mc t p).toNat + i : ℕ) : ℤ) + 1
      push_cast
      omega
    rw [generate_eq, List.map_append, List.map_map, List.map_map, hmc_map, hes_map,
      ← List.map_map, ← List.map_append, ← List.range_add, hab]
  refine ⟨hmap, ?_, ?_⟩
  · intro j q h
    have hj : j < t.toNat := by
      have hlen := (List.getElem?_eq_some_iff.mp h).1
      rw [generate_length] at hlen
      omega
    have hL : ((generate_mock_data g t p).map Question.id)[j]? = some q.id := by
      rw [List.getElem?_map, h]
      rfl
    rw [hmap, List.getElem?_map, List.getElem?_range hj] at hL
    exact (Option.some.inj hL).symm
  · intro i j qi qj hi hj hEi hMj
    have hia : (num_mc t p).toNat ≤ i := by
      by_contra hc
      push_neg at hc
      have := generate_getElem_mc hi hc
      rw [this] at hEi
      have hty : (mkMC g i).q_type = "MC" := rfl
      rw [hty] at hEi
      exact absurd hEi (by decide)
    have hja : j < (num_mc t p).toNat := by
      by_contra hc
      push_neg at hc
      have := generate_getElem_essay hj hc
      rw [this] at hMj
      have hty : (mkEssay g (num_mc t p) (j - (num_mc t p).toNat)).q_type = "Essay" := rfl
      rw [hty] at hMj
      exact absurd hMj (by decide)
    omega

theorem claim_c2_witness :
    ((0 : ℤ) < 10 ∧ (10 : ℤ) ≤ 1000 ∧ (0 : ℚ) ≤ 50 ∧ (50 : ℚ) ≤ 100) ∧
    ((generate_mock_data "G" 10 50).map Question.id
        = (List.range (10 : ℤ).toNat).map (fun j : ℕ => (j : ℤ) + 1) ∧
     (∀ (j : ℕ) (q : Question),
       (generate_mock_data "G" 10 50)[j]? = some q → q.id = (j : ℤ) + 1) ∧
     (∀ (i j : ℕ) (qi qj : Question),
       (generate_mock_data "G" 10 50)[i]? = some qi →
       (generate_mock_data "G" 10 50)[j]? = some qj →
       qi.q_type = "Essay" → qj.q_type = "MC" → j < i)) :=
  ⟨⟨by norm_num, by norm_num, by norm_num, by norm_num⟩,
   claim_c2_amended "G" 10 50 (by norm_num) (by norm_num) (by norm_num) (by norm_num)⟩

/-! ## Pagination and rendering lemmas -/

theorem pageGuard_le (y : ℚ) : (pageGuard y).1 ≤ 250 := by
  unfold pageGuard
  split_ifs with h
  · norm_num [topMargin]
  · exact le_of_not_lt h

theorem pageGuard_events (y : ℚ) : ∀ e ∈ (pageGuard y).2, e = PdfEvent.pageBreak := by
  unfold pageGuard
  split_ifs with h <;> intro e he <;> simp_all

theorem renderQuestion_placed {L : LayoutOracle} {pt : String} {y0 : ℚ} {q : Question}
    {yf : ℚ} {es : List PdfEvent} (h : renderQuestion L pt y0 q = some (yf, es)) :
    ∀ e ∈ es, placedInPage e := by
  have hg1 := pageGuard_le y0
  have hg1e := pageGuard_events y0
  simp only [renderQuestion] at h
  split at h
  · -- q_type = "MC"
    split at h
    · exact Option.noConfusion h
    · split at h
      · exact Option.noConfusion h
      · have h2 := Option.some.inj h
        rw [Prod.mk.injEq] at h2
        obtain ⟨-, h3⟩ := h2
        rw [← h3]
        intro e he
        simp only [List.mem_append, List.mem_singleton] at he
        rcases he with ((he | rfl) | he) | rfl
        · rw [hg1e e he]; trivial
        · exact hg1
        · rw [pageGuard_events _ e he]; trivial
        · exact pageGuard_le _
  · split at h
    · -- q_type = "Essay"
      have h2 := Option.some.inj h
      rw [Prod.mk.injEq] at h2
      obtain ⟨-, h3⟩ := h2
      rw [← h3]
      intro e he
      simp only [List.mem_append, List.mem_cons, List.mem_singleton,
        List.not_mem_nil, or_false] at he
      rcases he with he | rfl | rfl
      · rw [hg1e e he]; trivial
      · exact hg1
      · trivial
    · -- any other q_type
      have h2 := Option.some.inj h
      rw [Prod.mk.injEq] at h2
      obtain ⟨-, h3⟩ := h2
      rw [← h3]
      intro e he
      simp only [List.mem_append, List.mem_singleton] at he
      rcases he with he | rfl
      · rw [hg1e e he]; trivial
      · exact hg1

theorem renderAll_placed {L : LayoutOracle} {pt : String} :
    ∀ (qs : List Question) (y yf : ℚ) (es : List PdfEvent),
      renderAll L pt y qs = some (yf, es) → ∀ e ∈ es, placedInPage e := by
  intro qs
  induction qs with
  | nil =>
    intro y yf es h e he
    simp only [renderAll] at h
    have h2 := Option.some.inj h
    rw [Prod.mk.injEq] at h2
    obtain ⟨-, h3⟩ := h2
    rw [← h3] at he
    exact absurd he (List.not_mem_nil e)
  | cons q qs ih =>
    intro y yf es h e he
    simp only [renderAll] at h
    split at h
    · exact Option.noConfusion h
    · rename_i y1 es1 h1
      split at h
      · exact Option.noConfusion h
      · rename_i y2 es2 h2
        have h3 := Option.some.inj h
        rw [Prod.mk.injEq] at h3
        obtain ⟨-, h4⟩ := h3
        rw [← h4] at he
        rcases List.mem_append.mp he with he1 | he2
        · exact renderQuestion_placed h1 e he1
        · exact ih y1 y2 es2 h2 e he2

theorem buildOptStr_isSome :
    ∀ (opts : List String) (idx : ℕ), opts.length + idx ≤ 4 →
      (buildOptStr opts idx).isSome = true := by
  intro opts
  induction opts with
  | nil => intro idx _; rfl
  | cons o rest ih =>
    intro idx h
    have hlen : (o :: rest).length = rest.length + 1 := rfl
    have hidx : idx < labels.length := by
      have h4 : labels.length = 4 := rfl
      rw [h4]
      omega
    unfold buildOptStr
    rw [List.getElem?_eq_getElem hidx]
    have h2 := ih (idx + 1) (by omega)
    cases hb : buildOptStr rest (idx + 1) with
    | none => rw [hb] at h2; exact absurd h2 (by simp)
    | some s => rfl

theorem renderQuestion_isSome {L : LayoutOracle} {pt : String} {y0 : ℚ} {q : Question}
    (h : q.q_type = "MC" → ∃ opts, q.options = some opts ∧ opts.length = 4) :
    (renderQuestion L pt y0 q).isSome = true := by
  cases hr : renderQuestion L pt y0 q with
  | some v => rfl
  | none =>
    exfalso
    simp only [renderQuestion] at hr
    split at hr
    · next hty =>
      obtain ⟨opts, hopts, hlen⟩ := h hty
      rw [hopts] at hr
      split at hr
      · rename_i heq
        exact Option.noConfusion heq
      · rename_i opts2 heq
        have hopts2 : opts = opts2 := Option.some.inj heq
        split at hr
        · rename_i heqb
          have hb := buildOptStr_isSome opts 0 (by omega)
          rw [hopts2, heqb] at hb
          exact absurd hb (by simp)
        · exact Option.noConfusion hr
    · split at hr
      · exact Option.noConfusion hr
      · exact Option.noConfusion hr

theorem renderAll_isSome {L : LayoutOracle} {pt : String} :
    ∀ (qs : List Question) (y : ℚ),
      (∀ q ∈ qs, q.q_type = "MC" → ∃ opts, q.options = some opts ∧ opts.length = 4) →
      (renderAll L pt y qs).isSome = true := by
  intro qs
  induction qs with
  | nil => intro y _; rfl
  | cons q qs ih =>
    intro y hwf
    cases hr : renderAll L pt y (q :: qs) with
    | some v => rfl
    | none =>
      exfalso
      simp only [renderAll] at hr
      split at hr
      · rename_i h1
        have hq := @renderQuestion_isSome L pt y q
          (hwf q (List.mem_cons_self q qs))
        rw [h1] at hq
        exact absurd hq (by simp)
      · rename_i y1 es1 h1
        split at hr
        · rename_i h2
          have hrest := ih y1 (fun r hrr => hwf r (List.mem_cons_of_mem q hrr))
          rw [h2] at hrest
          exact absurd hrest (by simp)
        · exact Option.noConfusion hr

/-- Every multiple-choice record of the generator carries a 4-option list
(the shape `create_pdf` needs in its `"MC"` branch). -/
theorem generate_mc_options {g : String} {t : ℤ} {p : ℚ} :
    ∀ q ∈ generate_mock_data g t p, q.q_type = "MC" →
      ∃ opts, q.options = some opts ∧ opts.length = 4 := by
  intro q hq hty
  rcases generate_mem hq with ⟨i, rfl⟩ | ⟨i, rfl⟩
  · obtain ⟨-, hopts, hlen, -, -⟩ := mkMC_wf g i
    exact ⟨_, hopts, hlen⟩
  · have hty2 : (mkEssay g (num_mc t p) i).q_type = "Essay" := rfl
    rw [hty2] at hty
    exact absurd hty (by decide)

/-- C6: during `create_pdf` no question block and no options block is ever
placed while the vertical cursor exceeds the near-bottom threshold: the
pagination check before the question text, and its repetition before the
multiple-choice options sub-block, reset the cursor to the top margin first,
so every placed block sits at `y ≤ 250`. -/
theorem claim_c6 (L : LayoutOracle) (registerOk : Bool) (qs : List Question)
    (grade duration_str pt : String) :
    placementsOk (create_pdf L registerOk qs grade duration_str pt) := by
  unfold create_pdf
  split_ifs with h
  · trivial
  · cases hr : renderAll L pt (topMargin + 10 + 10 + 5) qs with
    | none => trivial
    | some v =>
      obtain ⟨yf, es⟩ := v
      intro e he
      rcases List.mem_cons.mp he with rfl | he2
      · trivial
      · exact renderAll_placed qs _ yf es hr e he2

theorem claim_c6_witness :
    placementsOk (create_pdf ⟨fun _ => 6, 6⟩ true (generate_mock_data "G" 10 50)
      "G" "60 phut" "2.00 diem") :=
  claim_c6 ⟨fun _ => 6, 6⟩ true (generate_mock_data "G" 10 50) "G" "60 phut" "2.00 diem"

/-- C7: when font registration fails (`pdf.add_font` raises `RuntimeError`),
`create_pdf` returns `None` — no document bytes are produced — and the
`if pdf_bytes:` guard in the caller therefore offers no download action. -/
theorem claim_c7 (L : LayoutOracle) (qs : List Question) (grade duration_str pt : String) :
    create_pdf L false qs grade duration_str pt = RenderResult.noDocument ∧
    downloadOffered (create_pdf L false qs grade duration_str pt) = false :=
  ⟨rfl, rfl⟩

/-- C9: rendering a list produced by `generate_mock_data` never crashes with
a `None` access: the per-record layout dispatches on `q_type`, options are
dereferenced only in the `"MC"` branch, and every `"MC"` record carries a
4-option list. -/
theorem claim_c9 (L : LayoutOracle) (registerOk : Bool) (g : String) (t : ℤ) (p : ℚ)
    (duration_str pt : String) :
    create_pdf L registerOk (generate_mock_data g t p) g duration_str pt
      ≠ RenderResult.crash := by
  unfold create_pdf
  split_ifs with h
  · exact fun hc => RenderResult.noConfusion hc
  · have hs := @renderAll_isSome L pt (generate_mock_data g t p)
      (topMargin + 10 + 10 + 5) generate_mc_options
    cases hr : renderAll L pt (topMargin + 10 + 10 + 5) (generate_mock_data g t p) with
    | none => rw [hr] at hs; exact absurd hs (by simp)
    | some v =>
      obtain ⟨yf, es⟩ := v
      exact fun hc => RenderResult.noConfusion hc

theorem claim_c9_witness :
    create_pdf ⟨fun _ => 6, 6⟩ true (generate_mock_data "G" 10 50) "G" "60 phut" "2.00 diem"
      ≠ RenderResult.crash :=
  claim_c9 ⟨fun _ => 6, 6⟩ true "G" 10 50 "60 phut" "2.00 diem"

/-- C8: the font provisioner short-circuits on the cache (no write, no
network access when the cache file exists); every write any call performs
targets the single cache file `arial.ttf`, at most one per call; a missing
system font does not raise but falls through to the download branch (the
network request is issued); and once a call has written the cache file, any
subsequent call performs no effect at all. -/
theorem claim_c8 (fs : FontFs) (copyOk downloadOk : Bool) :
    (fs.cacheExists = true →
      download_font_if_missing fs copyOk downloadOk = (fs, [])) ∧
    (writesOf (download_font_if_missing fs copyOk downloadOk).2 = [] ∨
      writesOf (download_font_if_missing fs copyOk downloadOk).2 = [FONT_FILENAME]) ∧
    (fs.cacheExists = false → fs.systemExists = false →
      FontEffect.netGet FONT_URL ∈ (download_font_if_missing fs copyOk downloadOk).2) ∧
    (∀ c2 d2 : Bool,
      FONT_FILENAME ∈ writesOf (download_font_if_missing fs copyOk downloadOk).2 →
      download_font_if_missing (download_font_if_missing fs copyOk downloadOk).1 c2 d2
        = ((download_font_if_missing fs copyOk downloadOk).1, [])) := by
  obtain ⟨ce, se⟩ := fs
  cases ce <;> cases se <;> cases copyOk <;> cases downloadOk <;>
    with_unfolding_all decide

theorem claim_c8_witness :
    ((FontFs.mk true false).cacheExists = true →
      download_font_if_missing ⟨true, false⟩ false false = (⟨true, false⟩, [])) ∧
    (writesOf (download_font_if_missing ⟨true, false⟩ false false).2 = [] ∨
      writesOf (download_font_if_missing ⟨true, false⟩ false false).2 = [FONT_FILENAME]) ∧
    ((FontFs.mk true false).cacheExists = false →
      (FontFs.mk true false).systemExists = false →
      FontEffect.netGet FONT_URL ∈ (download_font_if_missing ⟨true, false⟩ false false).2) ∧
    (∀ c2 d2 : Bool,
      FONT_FILENAME ∈ writesOf (download_font_if_missing ⟨true, false⟩ false false).2 →
      download_font_if_missing (download_font_if_missing ⟨true, false⟩ false false).1 c2 d2
        = ((download_font_if_missing ⟨true, false⟩ false false).1, [])) :=
  claim_c8 ⟨true, false⟩ false false

end EnglishTestApp
